import Mathlib

/-!
Verification of the codec registry of the `scidatacontainer` package.

The embedding follows `src/scidatacontainer/__init__.py` (the `register`
function and the three module-level tables `suffixes`, `classes`, `formats`)
and `src/scidatacontainer/fileimage.py` (the `PngFile` conversion class).

Python dictionaries are modelled as association lists with last-write-wins
update semantics; Python class objects are modelled as `FClass` records
carrying an identity tag and the set of their callable attributes; the
Python types used as keys of the `classes` table are modelled by `PType`
(with `Option PType` as key type, since `None` is a legal key).
A raised exception is modelled as an `Except.error` carrying the error and
the state of the module tables at the moment of the raise, so that
"a failed call leaves the tables unchanged" is a provable statement rather
than one baked into the embedding.
-/

/-- Identity of a Python class object together with its attribute table:
each entry maps an attribute name to whether that attribute is callable.
Mirrors what `hasattr`/`callable(getattr ...)` can observe in `register`. -/
structure FClass where
  ident : Nat
  attrs : List (String × Bool)
deriving DecidableEq, Repr

/-- The Python types that occur as `pclass` arguments of `register`
(`dict` is the one the source special-cases). -/
inductive PType where
  | dict
  | list
  | str
  | bytes
  | ndarray
deriving DecidableEq, Repr

/-- Lookup in an association list, mirroring Python `d[k]` / `k in d`. -/
def alLookup {α β : Type} [DecidableEq α] : List (α × β) → α → Option β
  | [], _ => none
  | (k, v) :: rest, a => if k = a then some v else alLookup rest a

/-- Update of an association list, mirroring Python `d[k] = v`
(overwrites an existing binding, otherwise appends). -/
def alUpdate {α β : Type} [DecidableEq α] : List (α × β) → α → β → List (α × β)
  | [], a, b => [(a, b)]
  | (k, v) :: rest, a, b =>
      if k = a then (a, b) :: rest else (k, v) :: alUpdate rest a b

/-- Whether attribute `m` of class `f` exists and is callable:
`hasattr(fclass, m) and callable(getattr(fclass, m))`. -/
def hasCallable (f : FClass) (m : String) : Bool :=
  alLookup f.attrs m = some true

/-- The sanity check loop of `register`: returns the first of
`encode`, `decode`, `hash` that is missing or not callable, `none` if all
three pass.  Mirrors the `for method in ("encode", "decode", "hash")` loop. -/
def contractCheck (f : FClass) : Option String :=
  List.find? (fun m => ¬ hasCallable f m) ["encode", "decode", "hash"]

/-- The module-level registry tables of `scidatacontainer/__init__.py`:
`suffixes`, `classes` and `formats`. -/
structure RegState where
  suffixes : List (String × FClass)
  classes : List (Option PType × FClass)
  formats : List FClass
deriving DecidableEq, Repr

/-- The initial state of the module tables: `suffixes = {}`, `classes = {}`,
`formats = []`. -/
def initState : RegState := ⟨[], [], []⟩

/-- The errors `register` can raise: the two `RuntimeError`s and the
`KeyError` of `suffixes[fclass]` on an unknown alias target. -/
inductive RegError where
  | conflictingAliasBinding (suffix target : String)
  | unknownAliasTarget (target : String)
  | contractViolation (method suffix : String)
deriving DecidableEq, Repr

/-- The `fclass` argument of `register`: either a concrete conversion class
or a string (`isinstance(fclass, str)`), interpreted as a known suffix. -/
inductive CodecArg where
  | cls (f : FClass)
  | str (s : String)
deriving DecidableEq, Repr

/-- The tail of `register` after alias resolution: the contract check
followed by the three sequential table mutations.  The intermediate states
`st1`, `st2` record the mutation order of the source. -/
def registerChecked (st : RegState) (suffix : String) (fclass : FClass)
    (pclass : Option PType) : Except (RegError × RegState) RegState :=
  match contractCheck fclass with
  | some m => Except.error (RegError.contractViolation m suffix, st)
  | none =>
    let st1 : RegState := { st with suffixes := alUpdate st.suffixes suffix fclass }
    let st2 : RegState :=
      { st1 with classes :=
          if alLookup st1.classes pclass = none ∨ pclass ≠ some PType.dict then
            alUpdate st1.classes pclass fclass
          else st1.classes }
    Except.ok
      { st2 with formats :=
          if fclass ∈ st2.formats then st2.formats else st2.formats ++ [fclass] }

/-- The `register` function of `scidatacontainer/__init__.py`.  An
`Except.error` carries the table state at the moment of the raise. -/
def register (st : RegState) (suffix : String) (arg : CodecArg)
    (pclass : Option PType) : Except (RegError × RegState) RegState :=
  match arg with
  | CodecArg.str s =>
      if pclass ≠ none then
        Except.error (RegError.conflictingAliasBinding suffix s, st)
      else
        match alLookup st.suffixes s with
        | some f => registerChecked st suffix f pclass
        | none => Except.error (RegError.unknownAliasTarget s, st)
  | CodecArg.cls f => registerChecked st suffix f pclass

/-- One call of `register` as recorded by a driver loop. -/
structure RegCall where
  suffix : String
  arg : CodecArg
  pclass : Option PType
deriving DecidableEq, Repr

/-- Run a sequence of `register` calls, continuing from the post-exception
state when a call raises (the bootstrap loop catches nothing after
`register` starts, but callers of the module may). -/
def runCalls : RegState → List RegCall → RegState
  | st, [] => st
  | st, c :: rest =>
      match register st c.suffix c.arg c.pclass with
      | Except.ok st' => runCalls st' rest
      | Except.error (_, st') => runCalls st' rest

/-- Writing a key and reading any key back. -/
theorem alLookup_alUpdate {α β : Type} [DecidableEq α] (l : List (α × β))
    (k a : α) (v : β) :
    alLookup (alUpdate l k v) a = if k = a then some v else alLookup l a := by
  induction l with
  | nil => simp [alLookup, alUpdate]
  | cons hd tl ih =>
      obtain ⟨k', v'⟩ := hd
      by_cases hk : k' = k
      · subst hk
        by_cases ha : k' = a <;> simp [alLookup, alUpdate, ha]
      · by_cases ha : k' = a
        · subst ha
          have hk2 : ¬ k = k' := fun h => hk h.symm
          simp [alLookup, alUpdate, hk, hk2]
        · simp [alLookup, alUpdate, hk, ha, ih]

/-- The contract check passes exactly when all three required methods are
present and callable. -/
theorem contractCheck_none_iff (f : FClass) :
    contractCheck f = none ↔
      (hasCallable f "encode" = true ∧ hasCallable f "decode" = true ∧
        hasCallable f "hash" = true) := by
  cases h1 : hasCallable f "encode" <;> cases h2 : hasCallable f "decode" <;>
    cases h3 : hasCallable f "hash" <;>
      simp [contractCheck, List.find?, h1, h2, h3]

/-- A raise inside `registerChecked` happens before any table mutation. -/
theorem registerChecked_error (st : RegState) (suffix : String) (f : FClass)
    (pclass : Option PType) (e : RegError) (st' : RegState)
    (h : registerChecked st suffix f pclass = Except.error (e, st')) :
    st' = st ∧ ∃ m, e = RegError.contractViolation m suffix ∧
      contractCheck f = some m := by
  unfold registerChecked at h
  cases hc : contractCheck f with
  | none => simp [hc] at h
  | some m =>
      simp [hc] at h
      exact ⟨h.2.symm, m, h.1.symm, rfl⟩

/-- Explicit description of the state produced by a successful
`registerChecked`. -/
theorem registerChecked_ok (st : RegState) (suffix : String) (f : FClass)
    (pclass : Option PType) (st' : RegState)
    (h : registerChecked st suffix f pclass = Except.ok st') :
    contractCheck f = none ∧
    st'.suffixes = alUpdate st.suffixes suffix f ∧
    st'.classes = (if alLookup st.classes pclass = none ∨ pclass ≠ some PType.dict
        then alUpdate st.classes pclass f else st.classes) ∧
    st'.formats = (if f ∈ st.formats then st.formats else st.formats ++ [f]) := by
  unfold registerChecked at h
  cases hc : contractCheck f with
  | some m => simp [hc] at h
  | none =>
      simp only [hc] at h
      obtain rfl := (Except.ok.inj h).symm
      exact ⟨rfl, rfl, rfl, rfl⟩

/-- Any raise inside `register` happens before any table mutation. -/
theorem register_error_state (st : RegState) (suffix : String) (arg : CodecArg)
    (pclass : Option PType) (e : RegError) (st' : RegState)
    (h : register st suffix arg pclass = Except.error (e, st')) : st' = st := by
  unfold register at h
  cases arg with
  | cls f => exact (registerChecked_error st suffix f pclass e st' h).1
  | str s =>
      by_cases hp : pclass = none
      · subst hp
        simp only [ne_eq, not_true_eq_false, if_false, if_neg] at h
        cases hl : alLookup st.suffixes s with
        | some f =>
            rw [hl] at h
            exact (registerChecked_error st suffix f none e st' h).1
        | none =>
            rw [hl] at h
            simp at h
            exact h.2.symm
      · simp only [ne_eq, hp, not_false_eq_true, if_true, if_pos] at h
        simp at h
        exact h.2.symm

/-- Every codec stored by a successful `register` call passed the contract
check, and all table values come from the old tables or from that codec. -/
theorem register_ok_cases (st : RegState) (suffix : String) (arg : CodecArg)
    (pclass : Option PType) (st' : RegState)
    (h : register st suffix arg pclass = Except.ok st') :
    ∃ f, contractCheck f = none ∧
      (arg = CodecArg.cls f ∨
        (∃ s, arg = CodecArg.str s ∧ pclass = none ∧
          alLookup st.suffixes s = some f)) ∧
      st'.suffixes = alUpdate st.suffixes suffix f ∧
      st'.classes = (if alLookup st.classes pclass = none ∨ pclass ≠ some PType.dict
          then alUpdate st.classes pclass f else st.classes) ∧
      st'.formats = (if f ∈ st.formats then st.formats else st.formats ++ [f]) := by
  unfold register at h
  cases arg with
  | cls f =>
      obtain ⟨hc, h1, h2, h3⟩ := registerChecked_ok st suffix f pclass st' h
      exact ⟨f, hc, Or.inl rfl, h1, h2, h3⟩
  | str s =>
      by_cases hp : pclass = none
      · subst hp
        simp only [ne_eq, not_true_eq_false, if_false, if_neg] at h
        cases hl : alLookup st.suffixes s with
        | some f =>
            rw [hl] at h
            obtain ⟨hc, h1, h2, h3⟩ := registerChecked_ok st suffix f none st' h
            exact ⟨f, hc, Or.inr ⟨s, rfl, rfl, hl⟩, h1, h2, h3⟩
        | none =>
            rw [hl] at h
            simp at h
      · simp only [ne_eq, hp, not_false_eq_true, if_true, if_pos] at h
        simp at h

/-- Invariant of the registry tables: every stored codec passed the contract
check and every codec reachable from `suffixes` is recorded in `formats`. -/
def goodTables (st : RegState) : Prop :=
  (∀ s f, alLookup st.suffixes s = some f → contractCheck f = none) ∧
  (∀ p f, alLookup st.classes p = some f → contractCheck f = none) ∧
  (∀ s f, alLookup st.suffixes s = some f → f ∈ st.formats)

/-- The empty tables satisfy the invariant. -/
theorem goodTables_init : goodTables initState := by
  refine ⟨?_, ?_, ?_⟩ <;> intro a b h <;> simp [initState, alLookup] at h

/-- One `register` call, raising or not, preserves the table invariant. -/
theorem register_preserves_goodTables (st : RegState) (c : RegCall)
    (hg : goodTables st) :
    goodTables (match register st c.suffix c.arg c.pclass with
      | Except.ok st' => st'
      | Except.error (_, st') => st') := by
  cases hr : register st c.suffix c.arg c.pclass with
  | error p =>
      obtain ⟨e, st'⟩ := p
      rw [register_error_state st c.suffix c.arg c.pclass e st' hr]
      exact hg
  | ok st' =>
      obtain ⟨f, hc, _, h1, h2, h3⟩ :=
        register_ok_cases st c.suffix c.arg c.pclass st' hr
      refine ⟨?_, ?_, ?_⟩
      · intro s g hl
        rw [h1, alLookup_alUpdate] at hl
        by_cases he : c.suffix = s
        · rw [if_pos he] at hl
          cases hl
          exact hc
        · rw [if_neg he] at hl
          exact hg.1 s g hl
      · intro p g hl
        rw [h2] at hl
        by_cases hcond : alLookup st.classes c.pclass = none ∨ c.pclass ≠ some PType.dict
        · rw [if_pos hcond, alLookup_alUpdate] at hl
          by_cases he : c.pclass = p
          · rw [if_pos he] at hl
            cases hl
            exact hc
          · rw [if_neg he] at hl
            exact hg.2.1 p g hl
        · rw [if_neg hcond] at hl
          exact hg.2.1 p g hl
      · intro s g hl
        rw [h1, alLookup_alUpdate] at hl
        rw [h3]
        by_cases he : c.suffix = s
        · rw [if_pos he] at hl
          obtain rfl := Option.some.inj hl
          by_cases hf : f ∈ st.formats
          · simp [hf]
          · simp [hf]
        · rw [if_neg he] at hl
          have := hg.2.2 s g hl
          by_cases hf : f ∈ st.formats
          · simp [hf, this]
          · simp [hf, this]

/-- Every state reachable by a sequence of `register` calls from given good
tables satisfies the invariant. -/
theorem runCalls_goodTables (calls : List RegCall) (st : RegState)
    (hg : goodTables st) : goodTables (runCalls st calls) := by
  induction calls generalizing st with
  | nil => exact hg
  | cons c rest ih =>
      have hstep := register_preserves_goodTables st c hg
      unfold runCalls
      cases hr : register st c.suffix c.arg c.pclass with
      | ok st' =>
          rw [hr] at hstep
          exact ih st' hstep
      | error p =>
          obtain ⟨e, st'⟩ := p
          rw [hr] at hstep
          exact ih st' hstep

/-- Modelled from the spec: the structured-document (JSON) conversion class
`JsonFile` lives in the `filebase` module, which is not among the sources;
only its identity as "the reserved structured-document default codec"
matters here, so it is represented as a complete `FClass` of its own. -/
def jsonFileClass : FClass :=
  ⟨0, [("encode", true), ("decode", true), ("hash", true)]⟩

/-- A demonstration conversion class with all three required methods. -/
def okCodec : FClass :=
  ⟨3, [("encode", true), ("decode", true), ("hash", true)]⟩

/-- A demonstration conversion class distinct from `jsonFileClass`. -/
def cDemoA : FClass :=
  ⟨1, [("encode", true), ("decode", true), ("hash", true)]⟩

/-- Another demonstration conversion class, distinct from `cDemoA`. -/
def cDemoB : FClass :=
  ⟨2, [("encode", true), ("decode", true), ("hash", true)]⟩

/-- The tables after `register(initState, "foo", cDemoA, dict)`. -/
def c1s1 : RegState :=
  ⟨[("foo", cDemoA)], [(some PType.dict, cDemoA)], [cDemoA]⟩

/-- The tables after additionally `register(c1s1, "bar", cDemoB, dict)`:
the `classes` entry for `dict` still holds `cDemoA`. -/
def c1s2 : RegState :=
  ⟨[("foo", cDemoA), ("bar", cDemoB)], [(some PType.dict, cDemoA)],
    [cDemoA, cDemoB]⟩

/-- C1 (counterexample): the `dict` entry of the type table is protected
against every later registration, not only against ones by the generic
untyped-mapping type after the structured-document codec claimed it.  Here
`cDemoA` (not the structured-document default) holds the `dict` slot, and a
later registration that explicitly reclaims `dict` with `cDemoB` leaves the
entry at `cDemoA`, contradicting the claim that the update then takes
place. -/
theorem C1_counterexample :
    register initState "foo" (CodecArg.cls cDemoA) (some PType.dict) =
      Except.ok c1s1 ∧
    alLookup c1s1.classes (some PType.dict) = some cDemoA ∧
    cDemoA ≠ jsonFileClass ∧
    cDemoB ≠ cDemoA ∧
    register c1s1 "bar" (CodecArg.cls cDemoB) (some PType.dict) =
      Except.ok c1s2 ∧
    alLookup c1s2.classes (some PType.dict) = some cDemoA := by
  refine ⟨rfl, by decide, by decide, by decide, rfl, by decide⟩

/-- C1 (amended): a successful `register` call updates
`classes[pclass] = fclass` unless `pclass` is `dict` and `dict` is already a
key of the type table — regardless of which codec currently holds that
entry; once any codec occupies the `dict` slot no later registration
changes it. -/
theorem C1_type_table_update (st : RegState) (suffix : String)
    (arg : CodecArg) (pclass : Option PType) (st' : RegState)
    (h : register st suffix arg pclass = Except.ok st') :
    ∃ f, alLookup st'.suffixes suffix = some f ∧
      st'.classes =
        (if pclass = some PType.dict ∧ (alLookup st.classes pclass).isSome
          then st.classes else alUpdate st.classes pclass f) := by
  obtain ⟨f, hc, hcase, h1, h2, h3⟩ := register_ok_cases st suffix arg pclass st' h
  refine ⟨f, by rw [h1, alLookup_alUpdate, if_pos rfl], ?_⟩
  rw [h2]
  by_cases hd : pclass = some PType.dict
  · by_cases hs : (alLookup st.classes pclass).isSome
    · have hcond : ¬(alLookup st.classes pclass = none ∨ pclass ≠ some PType.dict) := by
        rw [not_or]
        exact ⟨Option.isSome_iff_ne_none.mp hs, not_not.mpr hd⟩
      rw [if_neg hcond, if_pos ⟨hd, hs⟩]
    · have hn : alLookup st.classes pclass = none :=
        Option.not_isSome_iff_eq_none.mp hs
      rw [if_pos (Or.inl hn), if_neg (fun hcond => hs hcond.2)]
  · rw [if_pos (Or.inr hd), if_neg (fun hcond => hd hcond.1)]

/-- The tables after `register(initState, "json", okCodec, dict)`. -/
def stJdict : RegState :=
  ⟨[("json", okCodec)], [(some PType.dict, okCodec)], [okCodec]⟩

/-- Witness for `C1_type_table_update` at a concrete registration. -/
theorem C1_type_table_update_witness :
    ∃ f, alLookup stJdict.suffixes "json" = some f ∧
      stJdict.classes =
        (if some PType.dict = some PType.dict ∧
            (alLookup initState.classes (some PType.dict)).isSome
          then initState.classes
          else alUpdate initState.classes (some PType.dict) f) :=
  C1_type_table_update initState "json" (CodecArg.cls okCodec)
    (some PType.dict) stJdict (by rfl)

/-- C2: registering a concrete conversion class raises the contract
violation error exactly when one of `encode`, `decode`, `hash` is missing
or not callable; when all three are callable the registration succeeds and
the class is retrievable from the suffix table under that suffix. -/
theorem C2_contract_enforcement (st : RegState) (suffix : String)
    (f : FClass) (pclass : Option PType) :
    ((∃ m st'', register st suffix (CodecArg.cls f) pclass =
        Except.error (RegError.contractViolation m suffix, st'')) ↔
      ¬ (hasCallable f "encode" = true ∧ hasCallable f "decode" = true ∧
          hasCallable f "hash" = true)) ∧
    ((hasCallable f "encode" = true ∧ hasCallable f "decode" = true ∧
        hasCallable f "hash" = true) →
      ∃ st', register st suffix (CodecArg.cls f) pclass = Except.ok st' ∧
        alLookup st'.suffixes suffix = some f) := by
  have hreg : register st suffix (CodecArg.cls f) pclass =
      registerChecked st suffix f pclass := rfl
  cases hc : contractCheck f with
  | none =>
      have hall := (contractCheck_none_iff f).mp hc
      constructor
      · constructor
        · rintro ⟨m, st'', habs⟩
          rw [hreg] at habs
          unfold registerChecked at habs
          rw [hc] at habs
          exact Except.noConfusion habs
        · intro hn
          exact absurd hall hn
      · intro _
        refine ⟨{ suffixes := alUpdate st.suffixes suffix f,
                  classes := if alLookup st.classes pclass = none ∨
                      pclass ≠ some PType.dict then
                      alUpdate st.classes pclass f else st.classes,
                  formats := if f ∈ st.formats then st.formats
                      else st.formats ++ [f] }, ?_, ?_⟩
        · rw [hreg]
          unfold registerChecked
          rw [hc]
        · rw [alLookup_alUpdate, if_pos rfl]
  | some m =>
      have hnall : ¬ (hasCallable f "encode" = true ∧
          hasCallable f "decode" = true ∧ hasCallable f "hash" = true) := by
        intro hall
        have h0 := (contractCheck_none_iff f).mpr hall
        rw [h0] at hc
        exact Option.noConfusion hc
      constructor
      · constructor
        · intro _
          exact hnall
        · intro _
          refine ⟨m, st, ?_⟩
          rw [hreg]
          unfold registerChecked
          rw [hc]
      · intro hall
        exact absurd hall hnall

/-- Witness for `C2_contract_enforcement`: a complete codec registers and
is retrievable under its suffix. -/
theorem C2_contract_enforcement_witness :
    ∃ st', register initState "json" (CodecArg.cls okCodec) none =
        Except.ok st' ∧
      alLookup st'.suffixes "json" = some okCodec :=
  (C2_contract_enforcement initState "json" okCodec none).2 (by decide)

/-- C4: a `register` call that raises leaves the suffix table, the type
table and the known-codec list exactly as they were before the call. -/
theorem C4_no_partial_registration (st : RegState) (suffix : String)
    (arg : CodecArg) (pclass : Option PType) (e : RegError) (st' : RegState)
    (h : register st suffix arg pclass = Except.error (e, st')) :
    st'.suffixes = st.suffixes ∧ st'.classes = st.classes ∧
      st'.formats = st.formats := by
  obtain rfl := register_error_state st suffix arg pclass e st' h
  exact ⟨rfl, rfl, rfl⟩

/-- Witness for `C4_no_partial_registration` at a concrete failing call. -/
theorem C4_no_partial_registration_witness :
    c1s1.suffixes = c1s1.suffixes ∧ c1s1.classes = c1s1.classes ∧
      c1s1.formats = c1s1.formats :=
  C4_no_partial_registration c1s1 "log" (CodecArg.str "txt") none
    (RegError.unknownAliasTarget "txt") c1s1 (by rfl)

/-- C7: alias registration together with a native type raises the
conflicting-alias-binding error, for every state, suffix, target and
type. -/
theorem C7_alias_with_native_type_conflicts (st : RegState)
    (suffix s : String) (t : PType) :
    register st suffix (CodecArg.str s) (some t) =
      Except.error (RegError.conflictingAliasBinding suffix s, st) := by
  unfold register
  simp

/-- C8: alias registration naming an unregistered suffix, with no native
type, raises the unknown-alias-target error and registers nothing. -/
theorem C8_unknown_alias_target (st : RegState) (suffix s : String)
    (h : alLookup st.suffixes s = none) :
    register st suffix (CodecArg.str s) none =
      Except.error (RegError.unknownAliasTarget s, st) := by
  unfold register
  simp [h]

/-- Witness for `C8_unknown_alias_target` on the empty tables. -/
theorem C8_unknown_alias_target_witness :
    register initState "log" (CodecArg.str "txt") none =
      Except.error (RegError.unknownAliasTarget "txt", initState) :=
  C8_unknown_alias_target initState "log" "txt" (by rfl)

/-- C9: for alias calls the conflicting-alias-binding check precedes alias
resolution: it fires even when the referenced suffix is unregistered, and
the unknown-alias-target error is only reachable with `pclass = none`. -/
theorem C9_alias_error_order (st : RegState) (suffix s : String) :
    (∀ t : PType, alLookup st.suffixes s = none →
      register st suffix (CodecArg.str s) (some t) =
        Except.error (RegError.conflictingAliasBinding suffix s, st)) ∧
    (∀ (p : Option PType) (st' : RegState),
      register st suffix (CodecArg.str s) p =
        Except.error (RegError.unknownAliasTarget s, st') → p = none) := by
  constructor
  · intro t _
    unfold register
    simp
  · intro p st' h
    by_cases hp : p = none
    · exact hp
    · unfold register at h
      simp only [ne_eq, hp, not_false_eq_true, if_true, if_pos] at h
      simp at h

/-- Witness for `C9_alias_error_order` on the empty tables. -/
theorem C9_alias_error_order_witness :
    register initState "log" (CodecArg.str "txt") (some PType.dict) =
      Except.error (RegError.conflictingAliasBinding "log" "txt", initState) ∧
    (none : Option PType) = none :=
  ⟨(C9_alias_error_order initState "log" "txt").1 PType.dict (by rfl),
   (C9_alias_error_order initState "log" "txt").2 none initState (by rfl)⟩

/-- C10: a successful registration with the native type omitted stores the
codec in the type table under the key `None`; the most recent such
registration always occupies the `None` slot. -/
theorem C10_none_key_registration (st : RegState) (suffix : String)
    (arg : CodecArg) (st' : RegState)
    (h : register st suffix arg none = Except.ok st') :
    ∃ f, alLookup st'.suffixes suffix = some f ∧
      alLookup st'.classes none = some f := by
  obtain ⟨f, hc, hcase, h1, h2, h3⟩ := register_ok_cases st suffix arg none st' h
  refine ⟨f, by rw [h1, alLookup_alUpdate, if_pos rfl], ?_⟩
  rw [h2, if_pos (Or.inr (by simp)), alLookup_alUpdate, if_pos rfl]

/-- The tables after `register(initState, "json", okCodec, None)`. -/
def stJnone : RegState :=
  ⟨[("json", okCodec)], [(none, okCodec)], [okCodec]⟩

/-- Witness for `C10_none_key_registration` at a concrete registration. -/
theorem C10_none_key_registration_witness :
    ∃ f, alLookup stJnone.suffixes "json" = some f ∧
      alLookup stJnone.classes none = some f :=
  C10_none_key_registration initState "json" (CodecArg.cls okCodec) stJnone
    (by rfl)

/-- C6: after any sequence of `register` calls from the empty tables, every
codec stored in the suffix table or the type table has callable `encode`,
`decode` and `hash` attributes. -/
theorem C6_tables_hold_only_checked_codecs (calls : List RegCall) :
    (∀ s f, alLookup (runCalls initState calls).suffixes s = some f →
      hasCallable f "encode" = true ∧ hasCallable f "decode" = true ∧
        hasCallable f "hash" = true) ∧
    (∀ p f, alLookup (runCalls initState calls).classes p = some f →
      hasCallable f "encode" = true ∧ hasCallable f "decode" = true ∧
        hasCallable f "hash" = true) := by
  have hg := runCalls_goodTables calls initState goodTables_init
  exact ⟨fun s f hl => (contractCheck_none_iff f).mp (hg.1 s f hl),
    fun p f hl => (contractCheck_none_iff f).mp (hg.2.1 p f hl)⟩

/-- Witness for `C6_tables_hold_only_checked_codecs` on a one-call run. -/
theorem C6_tables_hold_only_checked_codecs_witness :
    hasCallable okCodec "encode" = true ∧
      hasCallable okCodec "decode" = true ∧
      hasCallable okCodec "hash" = true :=
  (C6_tables_hold_only_checked_codecs
      [⟨"json", CodecArg.cls okCodec, none⟩]).1 "json" okCodec (by rfl)

/-- C5: from any reachable state in which suffix `a` is registered to codec
`C`, the alias call `register(b, "a")` succeeds, maps `b` to the identical
codec `a` maps to, adds nothing to the known-codec list, and leaves every
suffix-table value a codec that was already a suffix-table value before. -/
theorem C5_alias_adds_no_codec (calls : List RegCall) (a b : String)
    (C : FClass)
    (hA : alLookup (runCalls initState calls).suffixes a = some C) :
    ∃ st', register (runCalls initState calls) b (CodecArg.str a) none =
        Except.ok st' ∧
      alLookup st'.suffixes b = some C ∧
      st'.formats = (runCalls initState calls).formats ∧
      (∀ s f, alLookup st'.suffixes s = some f →
        ∃ s0, alLookup (runCalls initState calls).suffixes s0 = some f) := by
  have hg := runCalls_goodTables calls initState goodTables_init
  have hc : contractCheck C = none := hg.1 a C hA
  have hmem : C ∈ (runCalls initState calls).formats := hg.2.2 a C hA
  have hreg : register (runCalls initState calls) b (CodecArg.str a) none =
      registerChecked (runCalls initState calls) b C none := by
    unfold register
    simp [hA]
  obtain ⟨st', hok⟩ : ∃ st',
      registerChecked (runCalls initState calls) b C none = Except.ok st' := by
    unfold registerChecked
    rw [hc]
    exact ⟨_, rfl⟩
  obtain ⟨_, h1, h2, h3⟩ :=
    registerChecked_ok (runCalls initState calls) b C none st' hok
  refine ⟨st', by rw [hreg, hok], ?_, ?_, ?_⟩
  · rw [h1, alLookup_alUpdate, if_pos rfl]
  · rw [h3, if_pos hmem]
  · intro s f hl
    rw [h1, alLookup_alUpdate] at hl
    by_cases he : b = s
    · rw [if_pos he] at hl
      obtain rfl := Option.some.inj hl
      exact ⟨a, hA⟩
    · rw [if_neg he] at hl
      exact ⟨s, hl⟩

/-- Witness for `C5_alias_adds_no_codec`: alias `"log"` of a registered
`"txt"`. -/
theorem C5_alias_adds_no_codec_witness :
    ∃ st', register
        (runCalls initState [⟨"txt", CodecArg.cls okCodec, none⟩]) "log"
        (CodecArg.str "txt") none = Except.ok st' ∧
      alLookup st'.suffixes "log" = some okCodec ∧
      st'.formats =
        (runCalls initState [⟨"txt", CodecArg.cls okCodec, none⟩]).formats ∧
      (∀ s f, alLookup st'.suffixes s = some f →
        ∃ s0, alLookup
          (runCalls initState
            [⟨"txt", CodecArg.cls okCodec, none⟩]).suffixes s0 = some f) :=
  C5_alias_adds_no_codec [⟨"txt", CodecArg.cls okCodec, none⟩] "txt" "log"
    okCodec (by rfl)

/-- Truncation to a 32-bit word. -/
def w32 (n : Nat) : Nat := n % 4294967296

/-- Right rotation of a 32-bit word by `n` places. -/
def rotr32 (n x : Nat) : Nat := w32 ((x >>> n) ||| (x <<< (32 - n)))

/-- The SHA-256 choice function. -/
def shaCh (x y z : Nat) : Nat := (x &&& y) ^^^ ((x ^^^ 4294967295) &&& z)

/-- The SHA-256 majority function. -/
def shaMaj (x y z : Nat) : Nat := (x &&& y) ^^^ (x &&& z) ^^^ (y &&& z)

/-- The SHA-256 big sigma-0 function. -/
def sigB0 (x : Nat) : Nat := rotr32 2 x ^^^ rotr32 13 x ^^^ rotr32 22 x

/-- The SHA-256 big sigma-1 function. -/
def sigB1 (x : Nat) : Nat := rotr32 6 x ^^^ rotr32 11 x ^^^ rotr32 25 x

/-- The SHA-256 small sigma-0 function. -/
def sigS0 (x : Nat) : Nat := rotr32 7 x ^^^ rotr32 18 x ^^^ (x >>> 3)

/-- The SHA-256 small sigma-1 function. -/
def sigS1 (x : Nat) : Nat := rotr32 17 x ^^^ rotr32 19 x ^^^ (x >>> 10)

/-- The 64 SHA-256 round constants (FIPS 180-4), written in decimal. -/
def shaK : List Nat :=
  [1116352408, 1899447441, 3049323471, 3921009573,
   961987163, 1508970993, 2453635748, 2870763221,
   3624381080, 310598401, 607225278, 1426881987,
   1925078388, 2162078206, 2614888103, 3248222580,
   3835390401, 4022224774, 264347078, 604807628,
   770255983, 1249150122, 1555081692, 1996064986,
   2554220882, 2821834349, 2952996808, 3210313671,
   3336571891, 3584528711, 113926993, 338241895,
   666307205, 773529912, 1294757372, 1396182291,
   1695183700, 1986661051, 2177026350, 2456956037,
   2730485921, 2820302411, 3259730800, 3345764771,
   3516065817, 3600352804, 4094571909, 275423344,
   430227734, 506948616, 659060556, 883997877,
   958139571, 1322822218, 1537002063, 1747873779,
   1955562222, 2024104815, 2227730452, 2361852424,
   2428436474, 2756734187, 3204031479, 3329325298]

/-- The SHA-256 initial hash value (FIPS 180-4), written in decimal. -/
def shaH0 : List Nat :=
  [1779033703, 3144134277, 1013904242, 2773480762,
   1359893119, 2600822924, 528734635, 1541459225]

/-- Big-endian byte serialization of `n` into `k` bytes. -/
def toBytesBE : Nat → Nat → List Nat
  | 0, _ => []
  | k + 1, n => toBytesBE k (n / 256) ++ [n % 256]

/-- Group a byte list into big-endian 32-bit words. -/
def bytesToWords : List Nat → List Nat
  | a :: b :: c :: d :: rest =>
      (((a * 256 + b) * 256 + c) * 256 + d) :: bytesToWords rest
  | _ => []

/-- SHA-256 message padding: append `0x80`, zero bytes, and the 64-bit
big-endian bit length, reaching a multiple of 64 bytes. -/
def padMessage (msg : List Nat) : List Nat :=
  msg ++ [128] ++ List.replicate ((119 - msg.length % 64) % 64) 0 ++
    toBytesBE 8 (8 * msg.length)

/-- Split a byte list into 64-byte blocks; the fuel argument bounds the
number of blocks and is consumed once per block. -/
def chunk64F : Nat → List Nat → List (List Nat)
  | 0, _ => []
  | _ + 1, [] => []
  | fuel + 1, x :: xs => ((x :: xs).take 64) :: chunk64F fuel ((x :: xs).drop 64)

/-- Split a byte list into 64-byte blocks. -/
def chunk64 (l : List Nat) : List (List Nat) := chunk64F l.length l

/-- One extension step of the SHA-256 message schedule. -/
def schedStep (ws : List Nat) : List Nat :=
  let n := ws.length
  ws ++ [w32 (sigS1 (ws.getD (n - 2) 0) + ws.getD (n - 7) 0 +
    sigS0 (ws.getD (n - 15) 0) + ws.getD (n - 16) 0)]

/-- Extend the 16 words of a block to the 64-entry message schedule. -/
def sched64 (ws : List Nat) : List Nat :=
  (List.range 48).foldl (fun acc _ => schedStep acc) ws

/-- One SHA-256 compression round on the eight working variables. -/
def shaRound (hs : List Nat) (k w : Nat) : List Nat :=
  let a := hs.getD 0 0
  let b := hs.getD 1 0
  let c := hs.getD 2 0
  let d := hs.getD 3 0
  let e := hs.getD 4 0
  let f := hs.getD 5 0
  let g := hs.getD 6 0
  let hh := hs.getD 7 0
  let t1 := w32 (hh + sigB1 e + shaCh e f g + k + w)
  let t2 := w32 (sigB0 a + shaMaj a b c)
  [w32 (t1 + t2), a, b, c, w32 (d + t1), e, f, g]

/-- SHA-256 compression of one 64-byte block into the running hash. -/
def shaCompress (hs : List Nat) (block : List Nat) : List Nat :=
  let ws := sched64 (bytesToWords block)
  let fin := (List.zip shaK ws).foldl (fun s kw => shaRound s kw.1 kw.2) hs
  List.zipWith (fun x y => w32 (x + y)) hs fin

/-- SHA-256 digest of a byte list, as 32 bytes. -/
def sha256 (msg : List Nat) : List Nat :=
  List.flatten (((chunk64 (padMessage msg)).foldl shaCompress shaH0).map
    (toBytesBE 4))

/-- Lower-case hex digit for a value below 16. -/
def hexDigit (n : Nat) : Char :=
  if n < 10 then Char.ofNat (48 + n) else Char.ofNat (87 + n)

/-- Lower-case hex encoding of a byte list, as in `hexdigest()`. -/
def bytesToHex (bs : List Nat) : String :=
  String.mk (List.flatten (bs.map (fun b => [hexDigit (b / 16), hexDigit (b % 16)])))

/-- An in-memory image: shape, bit depth and the decompressed pixel
buffer, the native value held by `PngFile` (`self.data`, an array from the
external numeric library). -/
structure Image where
  rows : Nat
  cols : Nat
  depth : Nat
  pixels : List Nat
deriving DecidableEq, Repr

/-- Well-formedness of an image: the pixel buffer matches the shape. -/
def Image.wf (img : Image) : Prop :=
  img.pixels.length = img.rows * img.cols

/-- The data conversion class for PNG images from
`scidatacontainer/fileimage.py`, holding one native value. -/
structure PngFile where
  data : Image
deriving DecidableEq, Repr

/-- Modelled from the spec: `PngFile.encode` calls `cv.imencode`, which is
external library code; the spec requires only a standard compressed image
byte format whose exact bytes may vary with incidental encoding parameters
(compression level).  The model serializes shape, depth and pixels, with
`level` as the incidental parameter varying the byte output. -/
def PngFile.encode (f : PngFile) (level : Nat) : List Nat :=
  [f.data.rows, f.data.cols, f.data.depth] ++ f.data.pixels ++
    List.replicate level 0

/-- Modelled from the spec: `PngFile.decode` calls `cv.imdecode` (external
library code) with flags preserving color and bit depth; the model parses
the header and recovers the pixel buffer of the encoded shape. -/
def PngFile.decode (bs : List Nat) : Option PngFile :=
  match bs with
  | r :: c :: d :: rest => some ⟨⟨r, c, d, rest.take (r * c)⟩⟩
  | _ => none

/-- Canonical byte serialization of the decompressed native value: shape
and depth metadata followed by the raw pixel buffer. -/
def Image.canonical (img : Image) : List Nat :=
  [img.rows, img.cols, img.depth] ++ img.pixels

/-- Modelled from the spec: the `hash` method is inherited from
`filebase.FileBase`, a module absent from the sources; per the module
comment of `fileimage.py` and the spec it returns the SHA256 hash of the
data as a hex string, computed over the decompressed pixel buffer plus
shape and depth metadata rather than over the compressed bytes. -/
def PngFile.hash (f : PngFile) : String :=
  bytesToHex (sha256 f.data.canonical)

/-- First corpus image: a 2-by-2 8-bit image. -/
def imgA : Image := ⟨2, 2, 8, [10, 20, 30, 40]⟩

/-- Second corpus image: differs from `imgA` in one pixel. -/
def imgB : Image := ⟨2, 2, 8, [10, 20, 30, 41]⟩

set_option maxRecDepth 100000 in
/-- C3: for `PngFile`, encoding one well-formed image under two different
incidental parameters yields different byte sequences, yet the values
decoded from the two encodings hash identically; and the corpus images
that differ in pixel content hash differently. -/
theorem C3_png_hash_equivalence (v : Image) (p q : Nat)
    (hwf : v.wf) (hpq : p ≠ q) :
    PngFile.encode ⟨v⟩ p ≠ PngFile.encode ⟨v⟩ q ∧
    (∃ f1 f2, PngFile.decode (PngFile.encode ⟨v⟩ p) = some f1 ∧
      PngFile.decode (PngFile.encode ⟨v⟩ q) = some f2 ∧
      PngFile.hash f1 = PngFile.hash f2) ∧
    PngFile.hash ⟨imgA⟩ ≠ PngFile.hash ⟨imgB⟩ := by
  have hwf2 : v.pixels.length = v.rows * v.cols := hwf
  have hdec : ∀ r : Nat, PngFile.decode (PngFile.encode ⟨v⟩ r) = some ⟨v⟩ := by
    intro r
    have henc : PngFile.encode ⟨v⟩ r =
        v.rows :: v.cols :: v.depth :: (v.pixels ++ List.replicate r 0) := by
      simp [PngFile.encode]
    rw [henc]
    simp only [PngFile.decode]
    rw [← hwf2, List.take_left]
  refine ⟨?_, ⟨⟨v⟩, ⟨v⟩, hdec p, hdec q, rfl⟩, ?_⟩
  · intro h
    have hlen := congrArg List.length h
    simp [PngFile.encode] at hlen
    exact hpq hlen
  · decide

/-- Witness for `C3_png_hash_equivalence` at the first corpus image and
two concrete encoding parameters. -/
theorem C3_png_hash_equivalence_witness :
    PngFile.encode ⟨imgA⟩ 0 ≠ PngFile.encode ⟨imgA⟩ 1 ∧
    (∃ f1 f2, PngFile.decode (PngFile.encode ⟨imgA⟩ 0) = some f1 ∧
      PngFile.decode (PngFile.encode ⟨imgA⟩ 1) = some f2 ∧
      PngFile.hash f1 = PngFile.hash f2) ∧
    PngFile.hash ⟨imgA⟩ ≠ PngFile.hash ⟨imgB⟩ :=
  C3_png_hash_equivalence imgA 0 1 (by rfl) (by decide)
